import Mathlib

/-!
Shallow embedding of the trading bot in src/trading.py: the position/ledger
state machine (simulate_trades_live), the technical indicators (compute_RSI,
compute_MACD, Bollinger bands, Fibonacci levels, compute_indicators,
generate_signals), the two forecast estimators with their short-series
fallbacks (multi_horizon_forecast_with_accuracy_prophet, xgb_forecast) and
the risk-level classifier (classify_signal).

Prices and balances are exact rationals.  A pandas NaN cell is `none`; a
Python exception (for example IndexError from iloc[-1] on an empty series)
is `none` at the result type of the function.  The numeric internals of the
fitted Prophet and XGBoost models are external libraries and enter the
embedding as oracle parameters; every branch, formula and fallback that the
repository itself writes is translated literally.
-/

namespace TradingBot

/-- A held position, the dict stored in st.session_state.open_positions:
fields Buy_Time, Buy_Price, Quantity.  Timestamps are abstracted to naturals. -/
structure Position where
  buyTime : ℕ
  buyPrice : ℚ
  quantity : ℚ
  deriving DecidableEq, Repr

/-- A completed trade, the dict appended to st.session_state.trade_history:
fields Ticker, Buy_Time, Buy_Price, Sell_Time, Sell_Price, Profit/Loss.
Tickers are abstracted to naturals. -/
structure Trade where
  ticker : ℕ
  buyTime : ℕ
  buyPrice : ℚ
  sellTime : ℕ
  sellPrice : ℚ
  profitLoss : ℚ
  deriving DecidableEq, Repr

/-- The session state touched by one ticker evaluation of
simulate_trades_live: balance, the open position for that ticker, the trade
history and the balance history. -/
structure LedgerState where
  balance : ℚ
  position : Option Position
  trades : List Trade
  balanceHistory : List (ℕ × ℚ)
  deriving DecidableEq, Repr

/-- A fresh ledger with starting balance `b`, no open position and empty
histories. -/
def initLedger (b : ℚ) : LedgerState :=
  { balance := b, position := none, trades := [], balanceHistory := [] }

/-- One evaluation of simulate_trades_live for a single ticker on its latest
bar (src/trading.py lines 192-220).  `sig` is the latest-bar Signal, `price`
the latest Close, `time` the bar timestamp.  If the ticker is flat and the
signal is bullish it opens a position of quantity allocated/price, debits the
allocated capital and snapshots the balance; if a position is open and either
the take-profit trigger price >= Buy_Price * 1.10 fires or the signal is
bearish it credits allocated + profit, snapshots the balance, appends a Trade
and clears the position; otherwise the state is unchanged. -/
def simStep (tk : ℕ) (allocated : ℚ) (sig : ℤ) (time : ℕ) (price : ℚ)
    (s : LedgerState) : LedgerState :=
  match s.position with
  | none =>
      if sig = 1 then
        { balance := s.balance - allocated,
          position := some { buyTime := time, buyPrice := price, quantity := allocated / price },
          trades := s.trades,
          balanceHistory := s.balanceHistory ++ [(time, s.balance - allocated)] }
      else s
  | some pos =>
      if price ≥ pos.buyPrice * (11 / 10) ∨ sig = -1 then
        { balance := s.balance + allocated + (price - pos.buyPrice) * pos.quantity,
          position := none,
          trades := s.trades ++ [{ ticker := tk, buyTime := pos.buyTime,
                                   buyPrice := pos.buyPrice, sellTime := time,
                                   sellPrice := price,
                                   profitLoss := (price - pos.buyPrice) * pos.quantity }],
          balanceHistory :=
            s.balanceHistory ++ [(time, s.balance + allocated + (price - pos.buyPrice) * pos.quantity)] }
      else s

/-- The multi-instrument session state: one shared balance, one optional
position per ticker, shared trade and balance histories. -/
structure BotState (k : ℕ) where
  balance : ℚ
  positions : Fin k → Option Position
  trades : List Trade
  balanceHistory : List (ℕ × ℚ)

/-- The session state at start: balance `init`, every ticker flat, empty
histories (the st.session_state initialisation block). -/
def initBotState (k : ℕ) (init : ℚ) : BotState k :=
  { balance := init, positions := fun _ => none, trades := [], balanceHistory := [] }

/-- One ticker evaluation of simulate_trades_live inside the multi-instrument
session: run `simStep` on the shared balance and the position of ticker `i`,
then write the results back. -/
def botStep {k : ℕ} (alloc : Fin k → ℚ) (i : Fin k) (sig : ℤ) (time : ℕ) (price : ℚ)
    (s : BotState k) : BotState k :=
  let r := simStep i.val (alloc i) sig time price
      { balance := s.balance, position := s.positions i,
        trades := s.trades, balanceHistory := s.balanceHistory }
  { balance := r.balance, positions := Function.update s.positions i r.position,
    trades := r.trades, balanceHistory := r.balanceHistory }

/-- A sequence of ticker evaluations: each event is (ticker, signal, time,
price) and is fed to `botStep` in order. -/
def runEvents {k : ℕ} (alloc : Fin k → ℚ) (evs : List (Fin k × ℤ × ℕ × ℚ))
    (s : BotState k) : BotState k :=
  evs.foldl (fun st e => botStep alloc e.1 e.2.1 e.2.2.1 e.2.2.2 st) s

/-- Sum of the Profit/Loss fields over the trade history. -/
def tradesProfit (ts : List Trade) : ℚ :=
  (ts.map Trade.profitLoss).sum

/-- Capital currently locked in open positions: the sum of the allocated
capital of every ticker whose position is not none. -/
def openAllocation {k : ℕ} (alloc : Fin k → ℚ) (ps : Fin k → Option Position) : ℚ :=
  Finset.univ.sum fun i => if (ps i).isSome then alloc i else 0

/-- The ledger equation: current balance = initial balance + sum of recorded
trade profits - capital locked in currently open positions. -/
def ledgerOk {k : ℕ} (init : ℚ) (alloc : Fin k → ℚ) (s : BotState k) : Prop :=
  s.balance = init + tradesProfit s.trades - openAllocation alloc s.positions

/-- A ledger with one open position, used to instantiate the transition
theorems: balance 7500, position bought at 50 with quantity 50. -/
def sOpen : LedgerState :=
  { balance := 7500,
    position := some { buyTime := 0, buyPrice := 50, quantity := 50 },
    trades := [], balanceHistory := [] }

/-- Evaluation of `simStep` on a flat ledger with a bullish signal: the open
transition. -/
theorem simStep_open_eq (tk : ℕ) (allocated : ℚ) (t : ℕ) (price : ℚ)
    (s : LedgerState) (h : s.position = none) :
    simStep tk allocated 1 t price s =
      { balance := s.balance - allocated,
        position := some { buyTime := t, buyPrice := price, quantity := allocated / price },
        trades := s.trades,
        balanceHistory := s.balanceHistory ++ [(t, s.balance - allocated)] } := by
  obtain ⟨b, p0, tr, bh⟩ := s
  simp only at h
  subst h
  simp [simStep]

/-- Evaluation of `simStep` on an open ledger when the exit condition holds:
the close transition. -/
theorem simStep_close_eq (tk : ℕ) (allocated : ℚ) (sig : ℤ) (t : ℕ) (price : ℚ)
    (s : LedgerState) (pos : Position) (h : s.position = some pos)
    (hfire : price ≥ pos.buyPrice * (11 / 10) ∨ sig = -1) :
    simStep tk allocated sig t price s =
      { balance := s.balance + allocated + (price - pos.buyPrice) * pos.quantity,
        position := none,
        trades := s.trades ++ [{ ticker := tk, buyTime := pos.buyTime,
                                 buyPrice := pos.buyPrice, sellTime := t,
                                 sellPrice := price,
                                 profitLoss := (price - pos.buyPrice) * pos.quantity }],
        balanceHistory :=
          s.balanceHistory ++
            [(t, s.balance + allocated + (price - pos.buyPrice) * pos.quantity)] } := by
  obtain ⟨b, p0, tr, bh⟩ := s
  simp only at h
  subst h
  simp only [simStep]
  rw [if_pos hfire]

/-- Evaluation of `simStep` on an open ledger when the exit condition fails:
the position is held and the state unchanged. -/
theorem simStep_hold_eq (tk : ℕ) (allocated : ℚ) (sig : ℤ) (t : ℕ) (price : ℚ)
    (s : LedgerState) (pos : Position) (h : s.position = some pos)
    (hfire : ¬(price ≥ pos.buyPrice * (11 / 10) ∨ sig = -1)) :
    simStep tk allocated sig t price s = s := by
  obtain ⟨b, p0, tr, bh⟩ := s
  simp only at h
  subst h
  simp only [simStep]
  rw [if_neg hfire]

/-- Evaluation of `simStep` on a flat ledger with a non-bullish signal: no
action. -/
theorem simStep_skip_eq (tk : ℕ) (allocated : ℚ) (sig : ℤ) (t : ℕ) (price : ℚ)
    (s : LedgerState) (h : s.position = none) (hsig : sig ≠ 1) :
    simStep tk allocated sig t price s = s := by
  obtain ⟨b, p0, tr, bh⟩ := s
  simp only at h
  subst h
  simp only [simStep]
  rw [if_neg hsig]

/-- Appending one trade adds its Profit/Loss to the running total. -/
theorem tradesProfit_append (ts : List Trade) (tr : Trade) :
    tradesProfit (ts ++ [tr]) = tradesProfit ts + tr.profitLoss := by
  simp [tradesProfit]

/-- The quantity balance - trade profits + locked allocation of the evaluated
ticker is invariant under one ticker evaluation. -/
theorem simStep_ledger_delta (tk : ℕ) (allocated : ℚ) (sig : ℤ) (t : ℕ) (price : ℚ)
    (s : LedgerState) :
    (simStep tk allocated sig t price s).balance
        - tradesProfit (simStep tk allocated sig t price s).trades
        + (if (simStep tk allocated sig t price s).position.isSome then allocated else 0) =
      s.balance - tradesProfit s.trades
        + (if s.position.isSome then allocated else 0) := by
  cases hpos : s.position with
  | none =>
      rcases eq_or_ne sig 1 with hsig | hsig
      · subst hsig
        rw [simStep_open_eq tk allocated t price s hpos]
        simp [hpos]
        ring
      · rw [simStep_skip_eq tk allocated sig t price s hpos hsig, hpos]
  | some pos =>
      by_cases hfire : price ≥ pos.buyPrice * (11 / 10) ∨ sig = -1
      · rw [simStep_close_eq tk allocated sig t price s pos hpos hfire]
        simp [hpos, tradesProfit_append]
        ring
      · rw [simStep_hold_eq tk allocated sig t price s pos hpos hfire, hpos]

/-- Updating the position of one ticker shifts the locked allocation by the
difference of the two if-contributions at that ticker. -/
theorem openAllocation_update {k : ℕ} (alloc : Fin k → ℚ) (ps : Fin k → Option Position)
    (i : Fin k) (q : Option Position) :
    openAllocation alloc (Function.update ps i q) =
      openAllocation alloc ps - (if (ps i).isSome then alloc i else 0)
        + (if q.isSome then alloc i else 0) := by
  classical
  have hfun : (fun j => if (Function.update ps i q j).isSome then alloc j else 0) =
      Function.update (fun j => if (ps j).isSome then alloc j else 0) i
        (if q.isSome then alloc i else 0) := by
    funext j
    rcases eq_or_ne j i with hj | hj
    · subst hj; simp
    · simp [Function.update_noteq hj]
  unfold openAllocation
  rw [hfun, Finset.sum_update_of_mem (Finset.mem_univ i),
    Finset.sum_eq_sum_diff_singleton_add (Finset.mem_univ i)
      (fun j => if (ps j).isSome then alloc j else 0)]
  ring

/-- One ticker evaluation preserves the ledger equation. -/
theorem botStep_preserves {k : ℕ} (init : ℚ) (alloc : Fin k → ℚ) (i : Fin k) (sig : ℤ)
    (t : ℕ) (price : ℚ) (s : BotState k) (h : ledgerOk init alloc s) :
    ledgerOk init alloc (botStep alloc i sig t price s) := by
  unfold ledgerOk at h ⊢
  unfold botStep
  simp only [openAllocation_update]
  have hdelta := simStep_ledger_delta i.val (alloc i) sig t price
    { balance := s.balance, position := s.positions i,
      trades := s.trades, balanceHistory := s.balanceHistory }
  simp only at hdelta
  linarith [hdelta, h]

/-- Any sequence of ticker evaluations preserves the ledger equation. -/
theorem runEvents_preserves {k : ℕ} (init : ℚ) (alloc : Fin k → ℚ)
    (evs : List (Fin k × ℤ × ℕ × ℚ)) :
    ∀ s : BotState k, ledgerOk init alloc s → ledgerOk init alloc (runEvents alloc evs s) := by
  induction evs with
  | nil => intro s h; exact h
  | cons e rest ih =>
      intro s h
      simp only [runEvents, List.foldl_cons] at ih ⊢
      exact ih _ (botStep_preserves init alloc e.1 e.2.1 e.2.2.1 e.2.2.2 s h)

/-- The fresh session state satisfies the ledger equation. -/
theorem initBotState_ledgerOk (k : ℕ) (init : ℚ) (alloc : Fin k → ℚ) :
    ledgerOk init alloc (initBotState k init) := by
  simp [ledgerOk, initBotState, tradesProfit, openAllocation]

/-- C10: from the all-flat start, every state reachable by ticker evaluations
satisfies the ledger equation current balance = initial balance + sum of the
recorded trade profits - sum of allocated capital over tickers whose position
is currently open, and every single evaluation (hence both the open and the
close transition) preserves that equation. -/
theorem ledger_equation_reachable {k : ℕ} (init : ℚ) (alloc : Fin k → ℚ)
    (evs : List (Fin k × ℤ × ℕ × ℚ)) :
    ledgerOk init alloc (runEvents alloc evs (initBotState k init)) ∧
    (∀ (i : Fin k) (sig : ℤ) (t : ℕ) (price : ℚ) (s : BotState k),
        ledgerOk init alloc s → ledgerOk init alloc (botStep alloc i sig t price s)) :=
  ⟨runEvents_preserves init alloc evs _ (initBotState_ledgerOk k init alloc),
   fun i sig t price s h => botStep_preserves init alloc i sig t price s h⟩

/-- C10 witness: with one ticker, full allocation 10000, a bullish evaluation
at price 50 from the fresh state keeps the ledger equation. -/
theorem ledger_equation_reachable_witness :
    ledgerOk 10000 (fun _ : Fin 1 => 10000)
      (botStep (fun _ : Fin 1 => 10000) 0 1 0 50 (initBotState 1 10000)) :=
  (ledger_equation_reachable 10000 (fun _ : Fin 1 => 10000) []).2 0 1 0 50
    (initBotState 1 10000)
    (by simp [ledgerOk, initBotState, tradesProfit, openAllocation])

/-- C1: closing an open position appends exactly one Trade whose Profit/Loss
is (exit - entry) * quantity, and a full round trip (open at entryP with
signal bullish, later close at exitP) both appends that one Trade and returns
the balance to its pre-open value plus (exitP - entryP) * quantity, where
quantity = allocated / entryP. -/
theorem open_flat_round_trip (tk : ℕ) (allocated entryP exitP : ℚ) (t1 t2 : ℕ) (sig : ℤ)
    (s : LedgerState) (hflat : s.position = none)
    (hexit : exitP ≥ entryP * (11 / 10) ∨ sig = -1) :
    (∀ (s2 : LedgerState) (pos : Position), s2.position = some pos →
        (exitP ≥ pos.buyPrice * (11 / 10) ∨ sig = -1) →
        (simStep tk allocated sig t2 exitP s2).trades =
          s2.trades ++ [{ ticker := tk, buyTime := pos.buyTime, buyPrice := pos.buyPrice,
                          sellTime := t2, sellPrice := exitP,
                          profitLoss := (exitP - pos.buyPrice) * pos.quantity }]) ∧
    (simStep tk allocated sig t2 exitP (simStep tk allocated 1 t1 entryP s)).trades =
      s.trades ++ [{ ticker := tk, buyTime := t1, buyPrice := entryP,
                     sellTime := t2, sellPrice := exitP,
                     profitLoss := (exitP - entryP) * (allocated / entryP) }] ∧
    (simStep tk allocated sig t2 exitP (simStep tk allocated 1 t1 entryP s)).balance =
      s.balance + (exitP - entryP) * (allocated / entryP) := by
  have hopen := simStep_open_eq tk allocated t1 entryP s hflat
  have hclose := simStep_close_eq tk allocated sig t2 exitP
      (simStep tk allocated 1 t1 entryP s)
      { buyTime := t1, buyPrice := entryP, quantity := allocated / entryP }
      (by rw [hopen]) hexit
  refine ⟨?_, ?_, ?_⟩
  · intro s2 pos h2 hfire
    rw [simStep_close_eq tk allocated sig t2 exitP s2 pos h2 hfire]
  · rw [hclose, hopen]
  · rw [hclose, hopen]
    simp only
    ring

/-- C1 witness: round trip at entry 50, exit 56, allocated capital 2500 from
a fresh 10000 ledger yields exactly one trade of profit 300 and final balance
10300. -/
theorem open_flat_round_trip_witness :
    (simStep 0 2500 0 1 56 (simStep 0 2500 1 0 50 (initLedger 10000))).trades =
      (initLedger 10000).trades ++
        [{ ticker := 0, buyTime := 0, buyPrice := 50, sellTime := 1, sellPrice := 56,
           profitLoss := (56 - 50) * (2500 / 50) }] ∧
    (simStep 0 2500 0 1 56 (simStep 0 2500 1 0 50 (initLedger 10000))).balance =
      (initLedger 10000).balance + (56 - 50) * (2500 / 50) :=
  ⟨(open_flat_round_trip 0 2500 50 56 0 1 0 (initLedger 10000) rfl
      (Or.inl (by norm_num))).2.1,
   (open_flat_round_trip 0 2500 50 56 0 1 0 (initLedger 10000) rfl
      (Or.inl (by norm_num))).2.2⟩

/-- C2: across one ticker evaluation, a held position is never replaced by a
different one (it is either kept exactly or cleared), other tickers are
untouched, and a position can only be created when the ticker was flat, in
which case the signal was bullish and the new position is the one built by
the open transition.  Since positions are one optional record per ticker,
each instrument holds at most one open position in every reachable state. -/
theorem single_open_position {k : ℕ} (alloc : Fin k → ℚ) (i : Fin k) (sig : ℤ)
    (time : ℕ) (price : ℚ) (s : BotState k) :
    (∀ pos : Position, s.positions i = some pos →
        (botStep alloc i sig time price s).positions i = some pos ∨
        (botStep alloc i sig time price s).positions i = none) ∧
    (∀ j : Fin k, j ≠ i → (botStep alloc i sig time price s).positions j = s.positions j) ∧
    (s.positions i = none →
        (botStep alloc i sig time price s).positions i = none ∨
        (sig = 1 ∧ (botStep alloc i sig time price s).positions i =
            some { buyTime := time, buyPrice := price, quantity := alloc i / price })) := by
  refine ⟨?_, ?_, ?_⟩
  · intro pos hpos
    simp only [botStep, simStep, hpos, Function.update_same]
    by_cases hc : price ≥ pos.buyPrice * (11 / 10) ∨ sig = -1
    · rw [if_pos hc]; exact Or.inr rfl
    · rw [if_neg hc]; exact Or.inl rfl
  · intro j hj
    simp only [botStep, Function.update_noteq hj]
  · intro hpos
    simp only [botStep, simStep, hpos, Function.update_same]
    by_cases hsig : sig = 1
    · rw [if_pos hsig]; exact Or.inr ⟨hsig, rfl⟩
    · rw [if_neg hsig]; exact Or.inl rfl

/-- C2 witness: with one ticker holding the sOpen position, one bearish
evaluation either keeps that exact position or clears it. -/
theorem single_open_position_witness :
    (botStep (fun _ : Fin 1 => 2500) 0 (-1) 1 40
        { balance := 7500, positions := fun _ => some { buyTime := 0, buyPrice := 50, quantity := 50 },
          trades := [], balanceHistory := [] }).positions 0 =
      some { buyTime := 0, buyPrice := 50, quantity := 50 } ∨
    (botStep (fun _ : Fin 1 => 2500) 0 (-1) 1 40
        { balance := 7500, positions := fun _ => some { buyTime := 0, buyPrice := 50, quantity := 50 },
          trades := [], balanceHistory := [] }).positions 0 = none :=
  (single_open_position (fun _ : Fin 1 => 2500) 0 (-1) 1 40
      { balance := 7500, positions := fun _ => some { buyTime := 0, buyPrice := 50, quantity := 50 },
        trades := [], balanceHistory := [] }).1
    { buyTime := 0, buyPrice := 50, quantity := 50 } rfl

/-- C3: from a flat state with a bullish signal, the open transition records
a position of quantity allocated/price bought at the given price and time,
debits exactly the allocated capital, appends one balance snapshot and leaves
the trade history untouched. -/
theorem flat_to_open_transition (tk : ℕ) (allocated price : ℚ) (t : ℕ)
    (s : LedgerState) (hflat : s.position = none) :
    simStep tk allocated 1 t price s =
      { balance := s.balance - allocated,
        position := some { buyTime := t, buyPrice := price, quantity := allocated / price },
        trades := s.trades,
        balanceHistory := s.balanceHistory ++ [(t, s.balance - allocated)] } :=
  simStep_open_eq tk allocated t price s hflat

/-- C3 witness: the spec scenario, bullish at price 50 with allocated capital
2500 from a fresh 10000 ledger, yields quantity 50 = 2500/50, balance 7500
and one balance snapshot. -/
theorem flat_to_open_transition_witness :
    simStep 0 2500 1 0 50 (initLedger 10000) =
      { balance := 7500,
        position := some { buyTime := 0, buyPrice := 50, quantity := 50 },
        trades := [],
        balanceHistory := [(0, 7500)] } :=
  (flat_to_open_transition 0 2500 50 0 (initLedger 10000) rfl).trans (by
    simp only [initLedger]
    norm_num)

/-- C4: with a position open, the close transition fires exactly when the
take-profit trigger price >= entry * 1.10 is met or the signal is bearish;
with a neutral signal and the trigger unmet the whole state is unchanged. -/
theorem open_to_flat_trigger (tk : ℕ) (allocated : ℚ) (sig : ℤ) (t : ℕ) (price : ℚ)
    (s : LedgerState) (pos : Position) (hopen : s.position = some pos) :
    ((simStep tk allocated sig t price s).position = none ↔
        (price ≥ pos.buyPrice * (11 / 10) ∨ sig = -1)) ∧
    (sig = 0 → price < pos.buyPrice * (11 / 10) →
        simStep tk allocated sig t price s = s) := by
  obtain ⟨b, pos0, tr, bh⟩ := s
  simp only at hopen
  subst hopen
  constructor
  · by_cases hc : price ≥ pos.buyPrice * (11 / 10) ∨ sig = -1
    · simp only [simStep]
      rw [if_pos hc]
      simpa using hc
    · simp only [simStep]
      rw [if_neg hc]
      simpa using hc
  · intro hsig hlt
    subst hsig
    simp only [simStep]
    rw [if_neg]
    rintro (hge | hbear)
    · exact absurd hge (not_le.mpr hlt)
    · exact absurd hbear (by decide)

/-- C4 witness: from the sOpen ledger (entry 50), price 56 >= 55 clears the
position, while price 54 with a neutral signal leaves the state untouched. -/
theorem open_to_flat_trigger_witness :
    (simStep 0 2500 0 1 56 sOpen).position = none ∧
    simStep 0 2500 0 1 54 sOpen = sOpen :=
  ⟨(open_to_flat_trigger 0 2500 0 1 56 sOpen
      { buyTime := 0, buyPrice := 50, quantity := 50 } rfl).1.mpr (Or.inl (by norm_num)),
   (open_to_flat_trigger 0 2500 0 1 54 sOpen
      { buyTime := 0, buyPrice := 50, quantity := 50 } rfl).2 rfl (by norm_num)⟩

/-- Recursive exponentially weighted mean, pandas ewm(adjust=False).mean()
after its starting value: each output is (1 - a) * previous + a * current. -/
def ewmRec (a : ℚ) : ℚ → List ℚ → List ℚ
  | _, [] => []
  | prev, x :: xs =>
      let y := (1 - a) * prev + a * x
      y :: ewmRec a y xs

/-- Exponentially weighted mean of a series, pandas ewm(adjust=False).mean():
the first output equals the first input, later outputs follow the recursion.
For span s pass a = 2/(s+1); for com c pass a = 1/(1+c). -/
def ewm (a : ℚ) : List ℚ → List ℚ
  | [] => []
  | x :: xs => x :: ewmRec a x xs

/-- Consecutive differences, series.diff() with the leading NaN dropped: entry
i is input (i+1) minus input i. -/
def diffs (l : List ℚ) : List ℚ :=
  (l.zip l.tail).map fun p => p.2 - p.1

/-- One RSI value from a smoothed average gain and average loss:
rs = avg_gain / avg_loss and RSI = 100 - 100/(1+rs), written with the IEEE
semantics of the float division in the source: avg_loss = 0 with a positive
avg_gain gives rs = +inf hence RSI = 100, and 0/0 gives NaN, modelled none. -/
def rsiPoint (g l : ℚ) : Option ℚ :=
  if l = 0 then
    if g = 0 then none else some 100
  else some (100 - 100 / (1 + g / l))

/-- compute_RSI (src/trading.py lines 119-127): clip the differences into
gains and losses, smooth both with ewm(com = period - 1, adjust=False), and
combine pointwise.  The list holds one optional value per difference; the
pandas series has one extra leading NaN at the very first bar. -/
def compute_RSI (closes : List ℚ) (period : ℕ) : List (Option ℚ) :=
  let delta := diffs closes
  let gain := delta.map fun d => max d 0
  let loss := delta.map fun d => max (-d) 0
  let avg_gain := ewm (1 / (period : ℚ)) gain
  let avg_loss := ewm (1 / (period : ℚ)) loss
  (avg_gain.zip avg_loss).map fun p => rsiPoint p.1 p.2

/-- compute_MACD (lines 129-134): EMA(span 12) minus EMA(span 26), and the
signal line EMA(span 9) of the MACD. -/
def compute_MACD (closes : List ℚ) : List ℚ × List ℚ :=
  let exp1 := ewm (2 / 13) closes
  let exp2 := ewm (2 / 27) closes
  let macd := (exp1.zip exp2).map fun p => p.1 - p.2
  (macd, ewm (2 / 10) macd)

/-- Rolling window application, pandas rolling(window=w): defined from the
w-th observation on, undefined (NaN) before. -/
def rollingApply (w : ℕ) (f : List ℚ → ℚ) (l : List ℚ) : List (Option ℚ) :=
  (List.range l.length).map fun i =>
    if w ≤ i + 1 then some (f ((l.drop (i + 1 - w)).take w)) else none

/-- Rolling simple moving average, rolling(window=w).mean(). -/
def rollingMean (w : ℕ) (l : List ℚ) : List (Option ℚ) :=
  rollingApply w (fun xs => xs.sum / (w : ℚ)) l

/-- Sample variance with ddof = 1, the square of pandas rolling std. -/
def sampleVar (xs : List ℚ) : ℚ :=
  let m := xs.sum / (xs.length : ℚ)
  ((xs.map fun x => (x - m) ^ 2).sum) / ((xs.length : ℚ) - 1)

/-- C6 first part: every defined RSI value lies in the interval [0, 100].
The helper lemmas below establish that smoothed gains and losses stay
nonnegative. -/
theorem ewmRec_nonneg (a : ℚ) (ha0 : 0 ≤ a) (ha1 : a ≤ 1) (l : List ℚ) :
    ∀ prev : ℚ, 0 ≤ prev → (∀ x ∈ l, 0 ≤ x) → ∀ y ∈ ewmRec a prev l, 0 ≤ y := by
  induction l with
  | nil => intro prev _ _ y hy; simp [ewmRec] at hy
  | cons x xs ih =>
      intro prev hprev hl y hy
      simp only [ewmRec, List.mem_cons] at hy
      have hx : 0 ≤ x := hl x (List.mem_cons_self x xs)
      have hy0 : 0 ≤ (1 - a) * prev + a * x := by
        have h1 : 0 ≤ (1 - a) * prev := mul_nonneg (by linarith) hprev
        have h2 : 0 ≤ a * x := mul_nonneg ha0 hx
        linarith
      rcases hy with hy | hy
      · exact hy ▸ hy0
      · exact ih _ hy0 (fun z hz => hl z (List.mem_cons_of_mem x hz)) y hy

/-- Exponential smoothing of a nonnegative series is nonnegative. -/
theorem ewm_nonneg (a : ℚ) (ha0 : 0 ≤ a) (ha1 : a ≤ 1) (l : List ℚ)
    (hl : ∀ x ∈ l, 0 ≤ x) : ∀ y ∈ ewm a l, 0 ≤ y := by
  cases l with
  | nil => intro y hy; simp [ewm] at hy
  | cons x xs =>
      intro y hy
      simp only [ewm, List.mem_cons] at hy
      rcases hy with hy | hy
      · exact hy ▸ hl x (List.mem_cons_self x xs)
      · exact ewmRec_nonneg a ha0 ha1 xs x (hl x (List.mem_cons_self x xs))
          (fun z hz => hl z (List.mem_cons_of_mem x hz)) y hy

/-- Exponential smoothing of a positive series is positive when 0 < a <= 1. -/
theorem ewmRec_pos (a : ℚ) (ha0 : 0 < a) (ha1 : a ≤ 1) (l : List ℚ) :
    ∀ prev : ℚ, 0 < prev → (∀ x ∈ l, 0 < x) → ∀ y ∈ ewmRec a prev l, 0 < y := by
  induction l with
  | nil => intro prev _ _ y hy; simp [ewmRec] at hy
  | cons x xs ih =>
      intro prev hprev hl y hy
      simp only [ewmRec, List.mem_cons] at hy
      have hx : 0 < x := hl x (List.mem_cons_self x xs)
      have hy0 : 0 < (1 - a) * prev + a * x := by
        have h1 : 0 ≤ (1 - a) * prev := mul_nonneg (by linarith) (le_of_lt hprev)
        have h2 : 0 < a * x := mul_pos ha0 hx
        linarith
      rcases hy with hy | hy
      · exact hy ▸ hy0
      · exact ih _ hy0 (fun z hz => hl z (List.mem_cons_of_mem x hz)) y hy

/-- Positivity of ewm on positive series. -/
theorem ewm_pos (a : ℚ) (ha0 : 0 < a) (ha1 : a ≤ 1) (l : List ℚ)
    (hl : ∀ x ∈ l, 0 < x) : ∀ y ∈ ewm a l, 0 < y := by
  cases l with
  | nil => intro y hy; simp [ewm] at hy
  | cons x xs =>
      intro y hy
      simp only [ewm, List.mem_cons] at hy
      rcases hy with hy | hy
      · exact hy ▸ hl x (List.mem_cons_self x xs)
      · exact ewmRec_pos a ha0 ha1 xs x (hl x (List.mem_cons_self x xs))
          (fun z hz => hl z (List.mem_cons_of_mem x hz)) y hy

/-- Exponential smoothing of an all-zero series is all zero. -/
theorem ewmRec_zero (a : ℚ) (l : List ℚ) :
    (∀ x ∈ l, x = 0) → ∀ y ∈ ewmRec a 0 l, y = 0 := by
  induction l with
  | nil => intro _ y hy; simp [ewmRec] at hy
  | cons x xs ih =>
      intro hl y hy
      have hx : x = 0 := hl x (List.mem_cons_self x xs)
      subst hx
      simp only [ewmRec, List.mem_cons] at hy
      have hz : (1 - a) * 0 + a * 0 = 0 := by ring
      rw [hz] at hy
      rcases hy with hy | hy
      · exact hy
      · exact ih (fun z hz2 => hl z (List.mem_cons_of_mem _ hz2)) y hy

/-- Smoothing a series of zeros gives zeros. -/
theorem ewm_zero (a : ℚ) (l : List ℚ) (hl : ∀ x ∈ l, x = 0) :
    ∀ y ∈ ewm a l, y = 0 := by
  cases l with
  | nil => intro y hy; simp [ewm] at hy
  | cons x xs =>
      intro y hy
      have hx : x = 0 := hl x (List.mem_cons_self x xs)
      subst hx
      simp only [ewm, List.mem_cons] at hy
      rcases hy with hy | hy
      · exact hy
      · exact ewmRec_zero a xs (fun z hz => hl z (List.mem_cons_of_mem _ hz)) y hy

/-- A defined RSI point from nonnegative smoothed gain and loss lies in
[0, 100]. -/
theorem rsiPoint_bounds (g l : ℚ) (hg : 0 ≤ g) (hl : 0 ≤ l) (q : ℚ)
    (h : rsiPoint g l = some q) : 0 ≤ q ∧ q ≤ 100 := by
  unfold rsiPoint at h
  by_cases hl0 : l = 0
  · rw [if_pos hl0] at h
    by_cases hg0 : g = 0
    · rw [if_pos hg0] at h; exact absurd h (by simp)
    · rw [if_neg hg0] at h
      have hq := Option.some.inj h
      subst hq
      norm_num
  · rw [if_neg hl0] at h
    have hlpos : 0 < l := lt_of_le_of_ne hl (Ne.symm hl0)
    have hrs : 0 ≤ g / l := div_nonneg hg (le_of_lt hlpos)
    have h1 : (0 : ℚ) < 1 + g / l := by linarith
    have h2 : 100 / (1 + g / l) ≤ 100 := div_le_self (by norm_num) (by linarith)
    have h3 : 0 < 100 / (1 + g / l) := div_pos (by norm_num) h1
    have hq := Option.some.inj h
    subst hq
    constructor <;> linarith

/-- Unfolding of diffs on two leading elements. -/
theorem diffs_cons_cons (a b : ℚ) (l : List ℚ) :
    diffs (a :: b :: l) = (b - a) :: diffs (b :: l) := rfl

/-- On a strictly increasing series every difference is positive. -/
theorem diffs_pos_of_chain (closes : List ℚ)
    (h : List.Chain' (fun a b => a < b) closes) : ∀ d ∈ diffs closes, 0 < d := by
  induction closes with
  | nil => intro d hd; simp [diffs] at hd
  | cons a rest ih =>
      cases rest with
      | nil => intro d hd; simp [diffs] at hd
      | cons b r =>
          intro d hd
          rw [diffs_cons_cons] at hd
          rcases List.mem_cons.mp hd with hd | hd
          · have hab : a < b := (List.chain'_cons.mp h).1
            subst hd; linarith
          · exact ih (List.chain'_cons.mp h).2 d hd

/-- C6: every defined value of compute_RSI lies in [0, 100]; and on a
strictly increasing price series (average loss zero, average gain positive)
every RSI value is exactly 100 rather than NaN or infinity. -/
theorem rsi_bounded_and_rising (closes : List ℚ) :
    (∀ o ∈ compute_RSI closes 14, ∀ q : ℚ, o = some q → 0 ≤ q ∧ q ≤ 100) ∧
    (List.Chain' (fun a b => a < b) closes →
      compute_RSI closes 14 =
        List.replicate (compute_RSI closes 14).length (some 100)) := by
  have ha0 : (0 : ℚ) ≤ 1 / ((14 : ℕ) : ℚ) := by norm_num
  have ha1 : (1 : ℚ) / ((14 : ℕ) : ℚ) ≤ 1 := by norm_num
  have hapos : (0 : ℚ) < 1 / ((14 : ℕ) : ℚ) := by norm_num
  constructor
  · intro o ho q hq
    subst hq
    simp only [compute_RSI, List.mem_map] at ho
    obtain ⟨p, hp, hpe⟩ := ho
    have hmem := List.of_mem_zip hp
    have hg : 0 ≤ p.1 := by
      refine ewm_nonneg _ ha0 ha1 _ ?_ p.1 hmem.1
      intro x hx
      simp only [List.mem_map] at hx
      obtain ⟨d, _, hd⟩ := hx
      rw [← hd]
      exact le_max_right d 0
    have hl : 0 ≤ p.2 := by
      refine ewm_nonneg _ ha0 ha1 _ ?_ p.2 hmem.2
      intro x hx
      simp only [List.mem_map] at hx
      obtain ⟨d, _, hd⟩ := hx
      rw [← hd]
      exact le_max_right (-d) 0
    exact rsiPoint_bounds p.1 p.2 hg hl q hpe
  · intro hchain
    apply List.eq_replicate_of_mem
    intro o ho
    simp only [compute_RSI, List.mem_map] at ho
    obtain ⟨p, hp, hpe⟩ := ho
    have hmem := List.of_mem_zip hp
    have hdpos := diffs_pos_of_chain closes hchain
    have hg : 0 < p.1 := by
      refine ewm_pos _ hapos ha1 _ ?_ p.1 hmem.1
      intro x hx
      simp only [List.mem_map] at hx
      obtain ⟨d, hd, hde⟩ := hx
      rw [← hde, max_eq_left (le_of_lt (hdpos d hd))]
      exact hdpos d hd
    have hl : p.2 = 0 := by
      refine ewm_zero _ _ ?_ p.2 hmem.2
      intro x hx
      simp only [List.mem_map] at hx
      obtain ⟨d, hd, hde⟩ := hx
      rw [← hde]
      exact max_eq_right (by linarith [hdpos d hd])
    rw [← hpe, hl]
    unfold rsiPoint
    rw [if_pos rfl, if_neg (ne_of_gt hg)]

/-- C6 witness: the strictly rising series 1, 2, 3 gives RSI exactly 100 at
every defined point. -/
theorem rsi_bounded_and_rising_witness :
    compute_RSI [(1 : ℚ), 2, 3] 14 =
      List.replicate (compute_RSI [(1 : ℚ), 2, 3] 14).length (some 100) :=
  (rsi_bounded_and_rising [1, 2, 3]).2 (by norm_num)

/-- One hourly price bar; only the columns compute_indicators reads. -/
structure Bar where
  high : ℚ
  low : ℚ
  close : ℚ
  deriving DecidableEq, Repr

/-- A flat bar at price 100, the C9 scenario input. -/
def flatBar : Bar := { high := 100, low := 100, close := 100 }

/-- compute_fibonacci_levels (lines 143-159): over the trailing
min(100, available) bars take the swing high and swing low and derive the
four retracement levels; none when the frame is empty (max of an empty
series is NaN). -/
def compute_fibonacci_levels (bars : List Bar) : Option (ℚ × ℚ × ℚ × ℚ) :=
  let lookback := min 100 bars.length
  let recent := bars.drop (bars.length - lookback)
  match (recent.map Bar.high).max?, (recent.map Bar.low).min? with
  | some hi, some lo =>
      let d := hi - lo
      some (hi - 236 / 1000 * d, hi - 382 / 1000 * d, hi - 1 / 2 * d, hi - 618 / 1000 * d)
  | _, _ => none

/-- One fully defined row of the indicator frame after df.dropna(). -/
structure IndicatorRow where
  close : ℚ
  maShort : ℚ
  maLong : ℚ
  rsi : ℚ
  macd : ℚ
  macdSignal : ℚ
  bbMiddle : ℚ
  bbStd : ℚ
  bbUpper : ℚ
  bbLower : ℚ
  fibo236 : ℚ
  fibo382 : ℚ
  fibo500 : ℚ
  fibo618 : ℚ
  deriving DecidableEq, Repr

/-- compute_indicators (lines 161-169): build every derived column - MA(5),
MA(20), RSI(14), MACD and its signal line, Bollinger(20, 2 sigma), constant
Fibonacci levels - and keep exactly the rows in which every column is
defined (df.dropna()).  `sq` is the external floating point square root used
by the Bollinger standard deviation; row selection only depends on the
definedness of the variance, never on the value of `sq`. -/
def compute_indicators (sq : ℚ → ℚ) (bars : List Bar) : List IndicatorRow :=
  let closes := bars.map Bar.close
  let maShortCol := rollingMean 5 closes
  let maLongCol := rollingMean 20 closes
  let rsiCol : List (Option ℚ) := none :: compute_RSI closes 14
  let macdCols := compute_MACD closes
  let bbMidCol := rollingMean 20 closes
  let bbStdCol := (rollingApply 20 sampleVar closes).map (Option.map sq)
  let fib := compute_fibonacci_levels bars
  (List.range bars.length).filterMap fun i =>
    match closes[i]?, (maShortCol[i]?).join, (maLongCol[i]?).join,
        (rsiCol[i]?).join, macdCols.1[i]?, macdCols.2[i]?,
        (bbMidCol[i]?).join, (bbStdCol[i]?).join, fib with
    | some c, some ms, some ml, some r, some mc, some mcs, some bm, some bs,
        some (f1, f2, f3, f4) =>
        some { close := c, maShort := ms, maLong := ml, rsi := r, macd := mc,
               macdSignal := mcs, bbMiddle := bm, bbStd := bs,
               bbUpper := bm + 2 * bs, bbLower := bm - 2 * bs,
               fibo236 := f1, fibo382 := f2, fibo500 := f3, fibo618 := f4 }
    | _, _, _, _, _, _, _, _, _ => none

/-- generate_signals (lines 171-175) on one row: Signal = 1 when the short
moving average is above the long one, -1 when below, else 0. -/
def signalOf (row : IndicatorRow) : ℤ :=
  if row.maShort > row.maLong then 1 else if row.maShort < row.maLong then -1 else 0

/-- simulate_trades_live for one ticker (lines 177-221): build the indicator
frame, skip the ticker when the frame is empty, otherwise evaluate the
trading step on the latest row. -/
def simulate_trades_live_ticker (sq : ℚ → ℚ) (bars : List Bar) (tk : ℕ)
    (allocated : ℚ) (time : ℕ) (s : LedgerState) : LedgerState :=
  match (compute_indicators sq bars).getLast? with
  | none => s
  | some row => simStep tk allocated (signalOf row) time row.close s

/-- The signal strength record built by classify_signal; the empty-string
text fields of the source dict are Strings, the TP/SL entries (empty string
versus formatted price) are Options. -/
structure SignalStrength where
  buy : String
  sell : String
  closePosition : String
  pred8 : ℚ
  pred16 : ℚ
  pred24 : ℚ
  accuracy : ℚ
  takeProfit : Option ℚ
  stopLoss : Option ℚ
  deriving DecidableEq, Repr

/-- classify_signal (lines 467-529).  The two estimator outputs and the
trailing volatility are inputs here: the caller computes them from the frame
via the two forecast functions and the rolling standard deviation (an
external floating point operation).  Everything after that point - the
blending of the two predictions, the accuracy reporting and the per-signal
strength and TP/SL construction - is translated literally. -/
def classify_signal (prophet_preds : ℕ → ℚ) (prophet_acc : ℚ) (xgb_preds : ℕ → ℚ)
    (volatility : ℚ) (signal : ℤ) (rsi : ℚ) (position_open : Bool) : SignalStrength :=
  let p8 := (prophet_preds 8 + xgb_preds 8) / 2
  let p16 := (prophet_preds 16 + xgb_preds 16) / 2
  let p24 := (prophet_preds 24 + xgb_preds 24) / 2
  let accuracy := prophet_acc
  let predicted_price := p8
  let tp_factor : ℚ := 2
  let sl_factor : ℚ := 2
  let base : SignalStrength :=
    { buy := "", sell := "", closePosition := "", pred8 := p8, pred16 := p16,
      pred24 := p24, accuracy := accuracy, takeProfit := none, stopLoss := none }
  if signal = 1 then
    { base with
      buy := if rsi < 30 then "Strong" else "Potential",
      takeProfit := some (predicted_price + volatility * tp_factor),
      stopLoss := some (predicted_price - volatility * sl_factor) }
  else if signal = -1 then
    { base with
      sell := if rsi > 70 then "Strong" else "Potential",
      closePosition := if position_open then "Close Position" else "",
      takeProfit := some (predicted_price - volatility * tp_factor),
      stopLoss := some (predicted_price + volatility * sl_factor) }
  else
    if position_open then
      { base with
        closePosition := "Consider Close",
        takeProfit := some (predicted_price + volatility * 1),
        stopLoss := some (predicted_price - volatility * 1) }
    else base

/-- The signals_list loop (lines 531-551) for one ticker: when the indicator
frame is empty the ticker is skipped and no classification row is emitted;
otherwise classify_signal runs on the latest row. -/
def classify_for_ticker (sq : ℚ → ℚ) (prophet_preds : ℕ → ℚ) (prophet_acc : ℚ)
    (xgb_preds : ℕ → ℚ) (volatility : ℚ) (position_open : Bool) (bars : List Bar) :
    Option SignalStrength :=
  match (compute_indicators sq bars).getLast? with
  | none => none
  | some row =>
      some (classify_signal prophet_preds prophet_acc xgb_preds volatility
        (signalOf row) row.rsi position_open)

/-- Fewer than 20 bars leave the indicator frame empty: the 20 bar rolling
window of MA_Long is never filled, so dropna removes every row, whatever
square root and whatever bars are given. -/
theorem compute_indicators_short (sq : ℚ → ℚ) (bars : List Bar)
    (h : bars.length < 20) : compute_indicators sq bars = [] := by
  simp only [compute_indicators]
  refine List.filterMap_eq_nil_iff.mpr ?_
  intro i hi
  have hilt : i < bars.length := List.mem_range.mp hi
  have hlen : i < (bars.map Bar.close).length := by simpa using hilt
  have hml : ((rollingMean 20 (bars.map Bar.close))[i]?).join = none := by
    simp only [rollingMean, rollingApply]
    have hcond : ¬ 20 ≤ i + 1 := by omega
    rw [List.getElem?_map, List.getElem?_range (by simpa using hlen)]
    simp [hcond]
    omega
  cases hc : (bars.map Bar.close)[i]? with
  | none => rfl
  | some c =>
      cases hms : ((rollingMean 5 (bars.map Bar.close))[i]?).join with
      | none => rfl
      | some ms => rw [hml]

/-- Ten flat bars leave the indicator frame empty. -/
theorem compute_indicators_flat10 (sq : ℚ → ℚ) :
    compute_indicators sq (List.replicate 10 flatBar) = [] :=
  compute_indicators_short sq (List.replicate 10 flatBar) (by simp)

/-- C9 counterexample: on ten flat bars at price 100 every RSI value is NaN
(the 0/0 division: smoothed gain and loss are both zero), and the indicator
frame after dropna is empty, so no latest row and hence no Signal value
exists at all - contrary to the claimed RSI near 50 (or defined edge value)
and Neutral Signal 0. -/
theorem flat_bars_rsi_and_frame_counterexample :
    compute_RSI (List.replicate 10 (100 : ℚ)) 14 = List.replicate 9 none ∧
    compute_indicators (fun q => q) (List.replicate 10 flatBar) = [] :=
  ⟨by norm_num [compute_RSI, diffs, ewm, ewmRec, rsiPoint, List.replicate],
   compute_indicators_flat10 (fun q => q)⟩

/-- C9 amended: for ten flat bars at 100 every RSI value is undefined and the
indicator frame is empty, so the trading step leaves the ledger untouched (no
trade, and no Signal is evaluated at all) and the classifier emits no row,
in particular no TP/SL. -/
theorem flat_bars_pipeline (sq : ℚ → ℚ) (tk : ℕ) (allocated : ℚ) (time : ℕ)
    (s : LedgerState) (pp : ℕ → ℚ) (pa : ℚ) (xp : ℕ → ℚ) (vol : ℚ) (po : Bool) :
    compute_RSI ((List.replicate 10 flatBar).map Bar.close) 14 = List.replicate 9 none ∧
    simulate_trades_live_ticker sq (List.replicate 10 flatBar) tk allocated time s = s ∧
    classify_for_ticker sq pp pa xp vol po (List.replicate 10 flatBar) = none := by
  have hemp := compute_indicators_flat10 sq
  refine ⟨?_, ?_, ?_⟩
  · norm_num [compute_RSI, diffs, ewm, ewmRec, rsiPoint, List.replicate, flatBar]
  · unfold simulate_trades_live_ticker
    rw [hemp]
    rfl
  · unfold classify_for_ticker
    rw [hemp]
    rfl

/-- C7: the blended predictions inside classify_signal are the arithmetic
means of the statistical and tree estimators at horizons 8, 16 and 24, the
reported accuracy is the statistical model backtest accuracy alone, and when
both estimators return the same value X at a horizon the blend is exactly X. -/
theorem blended_prediction_mean (pp : ℕ → ℚ) (pa : ℚ) (xp : ℕ → ℚ) (vol : ℚ)
    (sig : ℤ) (rsi : ℚ) (po : Bool) :
    (classify_signal pp pa xp vol sig rsi po).pred8 = (pp 8 + xp 8) / 2 ∧
    (classify_signal pp pa xp vol sig rsi po).pred16 = (pp 16 + xp 16) / 2 ∧
    (classify_signal pp pa xp vol sig rsi po).pred24 = (pp 24 + xp 24) / 2 ∧
    (classify_signal pp pa xp vol sig rsi po).accuracy = pa ∧
    (∀ X : ℚ, pp 8 = X → xp 8 = X →
        (classify_signal pp pa xp vol sig rsi po).pred8 = X) ∧
    (∀ X : ℚ, pp 16 = X → xp 16 = X →
        (classify_signal pp pa xp vol sig rsi po).pred16 = X) ∧
    (∀ X : ℚ, pp 24 = X → xp 24 = X →
        (classify_signal pp pa xp vol sig rsi po).pred24 = X) := by
  have h8 : (classify_signal pp pa xp vol sig rsi po).pred8 = (pp 8 + xp 8) / 2 := by
    unfold classify_signal
    split_ifs <;> rfl
  have h16 : (classify_signal pp pa xp vol sig rsi po).pred16 = (pp 16 + xp 16) / 2 := by
    unfold classify_signal
    split_ifs <;> rfl
  have h24 : (classify_signal pp pa xp vol sig rsi po).pred24 = (pp 24 + xp 24) / 2 := by
    unfold classify_signal
    split_ifs <;> rfl
  have hacc : (classify_signal pp pa xp vol sig rsi po).accuracy = pa := by
    unfold classify_signal
    split_ifs <;> rfl
  refine ⟨h8, h16, h24, hacc, ?_, ?_, ?_⟩
  · intro X hpX hxX
    rw [h8, hpX, hxX]
    ring
  · intro X hpX hxX
    rw [h16, hpX, hxX]
    ring
  · intro X hpX hxX
    rw [h24, hpX, hxX]
    ring

/-- C7 witness: two estimators both returning 100 at every horizon blend to
exactly 100. -/
theorem blended_prediction_mean_witness :
    (classify_signal (fun _ => 100) 90 (fun _ => 100) 3 0 50 false).pred8 = 100 :=
  (blended_prediction_mean (fun _ => 100) 90 (fun _ => 100) 3 0 50 false).2.2.2.2.1
    100 rfl rfl

/-- C8: the risk levels by signal case.  Bullish: TP = anchor + 2 vol,
SL = anchor - 2 vol, buy strength Strong exactly when RSI < 30.  Neutral with
an open position: Consider Close advisory, TP = anchor + 1 vol,
SL = anchor - 1 vol.  Neutral with no open position: no TP and no SL.  The
anchor is the blended 8 hour prediction. -/
theorem risk_levels_by_signal (pp : ℕ → ℚ) (pa : ℚ) (xp : ℕ → ℚ) (vol : ℚ)
    (sig : ℤ) (rsi : ℚ) (po : Bool) :
    (sig = 1 →
        (classify_signal pp pa xp vol sig rsi po).takeProfit =
          some ((pp 8 + xp 8) / 2 + vol * 2) ∧
        (classify_signal pp pa xp vol sig rsi po).stopLoss =
          some ((pp 8 + xp 8) / 2 - vol * 2) ∧
        ((classify_signal pp pa xp vol sig rsi po).buy = "Strong" ↔ rsi < 30)) ∧
    (sig = 0 → po = true →
        (classify_signal pp pa xp vol sig rsi po).closePosition = "Consider Close" ∧
        (classify_signal pp pa xp vol sig rsi po).takeProfit =
          some ((pp 8 + xp 8) / 2 + vol * 1) ∧
        (classify_signal pp pa xp vol sig rsi po).stopLoss =
          some ((pp 8 + xp 8) / 2 - vol * 1)) ∧
    (sig = 0 → po = false →
        (classify_signal pp pa xp vol sig rsi po).takeProfit = none ∧
        (classify_signal pp pa xp vol sig rsi po).stopLoss = none) := by
  refine ⟨?_, ?_, ?_⟩
  · intro hsig
    subst hsig
    unfold classify_signal
    rw [if_pos rfl]
    refine ⟨rfl, rfl, ?_⟩
    by_cases hr : rsi < 30
    · rw [if_pos hr]
      exact iff_of_true rfl hr
    · rw [if_neg hr]
      exact iff_of_false (show ("Potential" : String) ≠ "Strong" by decide) hr
  · intro hsig hpo
    subst hsig
    subst hpo
    unfold classify_signal
    rw [if_neg (by decide), if_neg (by decide), if_pos rfl]
    exact ⟨rfl, rfl, rfl⟩
  · intro hsig hpo
    subst hsig
    subst hpo
    unfold classify_signal
    rw [if_neg (by decide), if_neg (by decide), if_neg (by simp)]
    exact ⟨rfl, rfl⟩

/-- C8 witness: bullish with volatility 3 around a 100 blend gives TP 106 and
SL 94 with strength Potential at RSI 50, and neutral-flat emits no TP. -/
theorem risk_levels_by_signal_witness :
    (classify_signal (fun _ => 100) 90 (fun _ => 100) 3 1 50 true).takeProfit =
      some ((100 + 100) / 2 + 3 * 2) ∧
    (classify_signal (fun _ => 100) 90 (fun _ => 100) 3 0 50 false).takeProfit = none :=
  ⟨((risk_levels_by_signal (fun _ => 100) 90 (fun _ => 100) 3 1 50 true).1 rfl).1,
   ((risk_levels_by_signal (fun _ => 100) 90 (fun _ => 100) 3 0 50 false).2.2 rfl rfl).1⟩

/-- Outcome of one successful Prophet fit/backtest/refit cycle: a forward
prediction per horizon (already resolving the timestamp lookup with its
latest-point fallback) and the backtest accuracy max(0, 100 - MAPE).  The
numeric fit itself is the external Prophet library, passed as an oracle. -/
structure ProphetResult where
  predAt : ℕ → ℚ
  accuracy : ℚ

/-- train_test_prophet (lines 306-339): fewer than test_hours + 24 bars skip
fitting and return None; otherwise the result comes from the fit oracle,
which may itself be none, matching the further None returns when the
held-out and forecast timestamps fail to intersect. -/
def train_test_prophet (fit : List ℚ → Option ProphetResult) (closes : List ℚ)
    (test_hours : ℕ) : Option ProphetResult :=
  if closes.length < test_hours + 24 then none
  else fit closes

/-- multi_horizon_forecast_with_accuracy_prophet (lines 341-359): an empty
frame returns the constant 100.0 (the guarded iloc[-1] expression always
takes its else arm there) with accuracy 0; a failed train/test returns the
last close at every horizon with accuracy 0; otherwise the fitted result is
read off per horizon. -/
def multi_horizon_forecast_with_accuracy_prophet (fit : List ℚ → Option ProphetResult)
    (closes : List ℚ) (horizons : List ℕ) : Option (List (ℕ × ℚ) × ℚ) :=
  if closes.isEmpty then
    some (horizons.map fun h => (h, (100 : ℚ)), 0)
  else
    match train_test_prophet fit closes 24 with
    | none =>
        match closes.getLast? with
        | none => none
        | some lc => some (horizons.map fun h => (h, lc), 0)
    | some r => some (horizons.map fun h => (h, r.predAt h), r.accuracy)

/-- The external parts of xgb_forecast: the number of usable feature rows
left after the two dropna passes of the feature engineering, and the
iteratively rolled-forward model prediction per horizon. -/
structure XgbEnv where
  usableRows : ℕ
  predict : ℕ → ℚ

/-- xgb_forecast (lines 400-465): fewer than 100 bars, or fewer than 50
usable feature rows, fall back to the last close (iloc[-1], an IndexError
hence none on an empty series) at every horizon; otherwise the fitted model
rolls forward to each horizon. -/
def xgb_forecast (env : XgbEnv) (closes : List ℚ) (horizons : List ℕ) :
    Option (List (ℕ × ℚ)) :=
  if closes.length < 100 then
    match closes.getLast? with
    | none => none
    | some lc => some (horizons.map fun h => (h, lc))
  else if env.usableRows < 50 then
    match closes.getLast? with
    | none => none
    | some lc => some (horizons.map fun h => (h, lc))
  else
    some (horizons.map fun h => (h, env.predict h))

/-- C5 counterexample: on the empty Close series the tree model evaluates
iloc[-1] of an empty column, an IndexError, modelled none: the estimator
raises instead of returning a last close (none exists), refuting the claim
for the empty input it covers. -/
theorem xgb_empty_series_raises :
    xgb_forecast { usableRows := 0, predict := fun _ => 0 } [] [8, 16, 24] = none := rfl

/-- C5 amended: for every nonempty Close series shorter than the minimum
required bars - fewer than test_hours + 24 = 48 bars for the statistical
model, fewer than 100 bars or fewer than 50 usable feature rows for the tree
model - the estimator returns the last close at every requested horizon (the
statistical model with accuracy 0) without raising, whatever the fit oracle
does. -/
theorem forecast_fallback_short_series (fit : List ℚ → Option ProphetResult)
    (env : XgbEnv) (closes : List ℚ) (lc : ℚ) (horizons : List ℕ)
    (hlast : closes.getLast? = some lc) :
    (closes.length < 48 →
        multi_horizon_forecast_with_accuracy_prophet fit closes horizons =
          some (horizons.map fun h => (h, lc), 0)) ∧
    (closes.length < 100 →
        xgb_forecast env closes horizons = some (horizons.map fun h => (h, lc))) ∧
    (env.usableRows < 50 →
        xgb_forecast env closes horizons = some (horizons.map fun h => (h, lc))) := by
  have hne : ¬ closes.isEmpty = true := by
    cases closes with
    | nil => simp at hlast
    | cons a l => simp
  refine ⟨?_, ?_, ?_⟩
  · intro hlen
    unfold multi_horizon_forecast_with_accuracy_prophet train_test_prophet
    rw [if_neg hne, if_pos (show closes.length < 24 + 24 by omega), hlast]
  · intro hlen
    unfold xgb_forecast
    rw [if_pos hlen, hlast]
  · intro hrows
    unfold xgb_forecast
    by_cases hlen : closes.length < 100
    · rw [if_pos hlen, hlast]
    · rw [if_neg hlen, if_pos hrows, hlast]

/-- C5 witness: the one-bar series at 42 is below both minimums; both
estimators return 42 at the horizons 8, 16, 24 and the statistical accuracy
is 0. -/
theorem forecast_fallback_short_series_witness :
    multi_horizon_forecast_with_accuracy_prophet (fun _ => none) [(42 : ℚ)] [8, 16, 24] =
      some ([(8, 42), (16, 42), (24, 42)], 0) ∧
    xgb_forecast { usableRows := 0, predict := fun _ => 0 } [(42 : ℚ)] [8, 16, 24] =
      some [(8, 42), (16, 42), (24, 42)] := by
  constructor
  · have h := (forecast_fallback_short_series (fun _ => none)
      { usableRows := 0, predict := fun _ => 0 } [(42 : ℚ)] 42 [8, 16, 24] rfl).1
      (by norm_num)
    simpa using h
  · have h := (forecast_fallback_short_series (fun _ => none)
      { usableRows := 0, predict := fun _ => 0 } [(42 : ℚ)] 42 [8, 16, 24] rfl).2.1
      (by norm_num)
    simpa using h

end TradingBot
